import Mathlib

/-!
Verification of the AzuCob collection core: a shallow embedding of the
reconciliation engine (syncService.syncEfiBoletos), the dunning rule
selector and dispatch engine (chargeService.processAutomaticCharges,
chargeService.sendManualCharge), and the settlement coordinator
(chargeService.settleReceivable) together with the adapter wrappers
(gestaoClickService.settleReceivable, efiService.settleCharge).

Monetary values are embedded as rationals, dates as whole-day integers,
and database/adapter effects as explicit state threading.
-/

namespace AzuCob

/-! ## Data model -/

/-- One notification tier, as stored in the ChargeRule table.  The
`hasTemplate` flag records whether the included template relation is
present (the engine checks `!applicableRule.template`). -/
structure ChargeRule where
  id : Nat
  name : String
  daysOverdue : Nat
  templateId : Nat
  hasTemplate : Bool
  sendBoleto : Bool
  sendInvoice : Bool
deriving Repr, DecidableEq

/-- An additional collection email of a client (ClientEmail table). -/
structure ClientEmail where
  email : String
  active : Bool
deriving Repr, DecidableEq

/-- A client record.  `document` is the CPF/CNPJ string. -/
structure Client where
  id : Nat
  name : String
  document : String
  primaryEmail : Option String
  additionalEmails : List ClientEmail
deriving Repr, DecidableEq

/-- Receivable status values. -/
inductive RecStatus
  | PENDING
  | OVERDUE
  | PAID
  | CANCELLED
deriving Repr, DecidableEq

/-- A receivable record.  `gestaoClickId` is the required ERP
correlation id, `efiChargeId` the optional banking correlation id.
Dates are whole-day indices, values exact rationals. -/
structure Receivable where
  id : Nat
  gestaoClickId : String
  clientId : Nat
  client : Client
  description : String
  value : ℚ
  dueDate : Int
  daysOverdue : Nat
  efiChargeId : Option String
  status : RecStatus
  paidAt : Option Int
  paidValue : Option ℚ
deriving Repr, DecidableEq

/-! ## Rule Selector

`processAutomaticCharges` fetches active rules ordered ascending by
`daysOverdue` and then runs
`rules.filter((r) => r.daysOverdue <= receivable.daysOverdue).pop()`.
`Array.prototype.pop` returns the last element of the filtered array,
or `undefined` when it is empty. -/

/-- The rule selector of `processAutomaticCharges`. -/
def selectRule (rules : List ChargeRule) (d : Nat) : Option ChargeRule :=
  (rules.filter (fun r => decide (r.daysOverdue ≤ d))).getLast?

theorem getLast?_mem {α : Type} : ∀ (l : List α) (a : α), l.getLast? = some a → a ∈ l
  | [], _, h => by simp [List.getLast?] at h
  | [x], a, h => by
      simp [List.getLast?] at h
      simp [h]
  | x :: y :: t, a, h => by
      have h2 : (y :: t).getLast? = some a := by
        simpa [List.getLast?_cons_cons] using h
      have := getLast?_mem (y :: t) a h2
      simp [this]

theorem getLast?_ge_of_sorted {α : Type} (key : α → Nat) :
    ∀ (l : List α), l.Pairwise (fun a b => key a ≤ key b) →
      ∀ a, l.getLast? = some a → ∀ b ∈ l, key b ≤ key a
  | [], _, a, h => by simp [List.getLast?] at h
  | [x], _, a, h => by
      simp [List.getLast?] at h
      intro b hb
      simp at hb
      simp [hb, h]
  | x :: y :: t, hp, a, h => by
      have h2 : (y :: t).getLast? = some a := by
        simpa [List.getLast?_cons_cons] using h
      have hp2 : (y :: t).Pairwise (fun a b => key a ≤ key b) := hp.of_cons
      have ih := getLast?_ge_of_sorted key (y :: t) hp2 a h2
      intro b hb
      rcases List.mem_cons.mp hb with hbx | hbt
      · subst hbx
        have hmem : a ∈ y :: t := getLast?_mem _ _ h2
        exact (List.pairwise_cons.mp hp).1 a hmem
      · exact ih b hbt

theorem getLast?_eq_none_iff_nil {α : Type} :
    ∀ (l : List α), l.getLast? = none ↔ l = []
  | [] => by simp [List.getLast?]
  | [x] => by simp [List.getLast?]
  | x :: y :: t => by
      constructor
      · intro h
        have h2 : (y :: t).getLast? = none := by
          simp [List.getLast?_cons_cons] at h
        have := (getLast?_eq_none_iff_nil (y :: t)).mp h2
        simp at this
      · intro h
        simp at h

/-- C2: for every active rule set sorted ascending by days-overdue
threshold and every days-overdue value, the selector returns a rule
that qualifies (threshold ≤ days overdue) and whose threshold is
maximal among the qualifying rules; it returns no rule exactly when no
rule qualifies, in which case the receivable is skipped. -/
theorem selectRule_spec (rules : List ChargeRule) (d : Nat)
    (hs : rules.Pairwise (fun a b => a.daysOverdue ≤ b.daysOverdue)) :
    (∀ r, selectRule rules d = some r →
        r ∈ rules ∧ r.daysOverdue ≤ d ∧
          ∀ r2 ∈ rules, r2.daysOverdue ≤ d → r2.daysOverdue ≤ r.daysOverdue)
    ∧ (selectRule rules d = none → ∀ r ∈ rules, d < r.daysOverdue) := by
  constructor
  · intro r hr
    have hmem : r ∈ rules.filter (fun r => decide (r.daysOverdue ≤ d)) :=
      getLast?_mem _ _ hr
    have hmem2 := List.mem_filter.mp hmem
    refine ⟨hmem2.1, by simpa using hmem2.2, ?_⟩
    intro r2 hr2 hr2d
    have hp : (rules.filter (fun r => decide (r.daysOverdue ≤ d))).Pairwise
        (fun a b => a.daysOverdue ≤ b.daysOverdue) := hs.filter _
    have := getLast?_ge_of_sorted (fun r => r.daysOverdue) _ hp r hr
    exact this r2 (List.mem_filter.mpr ⟨hr2, by simpa using hr2d⟩)
  · intro hnone r hr
    have hnil : rules.filter (fun r => decide (r.daysOverdue ≤ d)) = [] :=
      (getLast?_eq_none_iff_nil _).mp hnone
    by_contra hlt
    push_neg at hlt
    have : r ∈ rules.filter (fun r => decide (r.daysOverdue ≤ d)) :=
      List.mem_filter.mpr ⟨hr, by simpa using hlt⟩
    simp [hnil] at this

/-- Demo rule at a given threshold, used to exercise the selector on
the documented example (active tiers at D+3, D+7, D+15, D+30). -/
def demoRule (i d : Nat) : ChargeRule :=
  { id := i, name := "tier", daysOverdue := d, templateId := i,
    hasTemplate := true, sendBoleto := true, sendInvoice := false }

def demoRules : List ChargeRule :=
  [demoRule 1 3, demoRule 2 7, demoRule 3 15, demoRule 4 30]

/-- C2 witness: on active tiers 3/7/15/30 and days-overdue 10 the
selector picks the D+7 tier, and the characterization theorem applies. -/
theorem selectRule_spec_witness :
    demoRules.Pairwise (fun a b => a.daysOverdue ≤ b.daysOverdue)
    ∧ selectRule demoRules 10 = some (demoRule 2 7)
    ∧ ((∀ r, selectRule demoRules 10 = some r →
          r ∈ demoRules ∧ r.daysOverdue ≤ 10 ∧
            ∀ r2 ∈ demoRules, r2.daysOverdue ≤ 10 → r2.daysOverdue ≤ r.daysOverdue)
      ∧ (selectRule demoRules 10 = none → ∀ r ∈ demoRules, 10 < r.daysOverdue)) :=
  ⟨by decide, by decide, selectRule_spec demoRules 10 (by decide)⟩

/-! ## Matching Engine (syncService.syncEfiBoletos)

Candidate charges fetched from the banking adapter. `total` is in the
smallest currency unit (centavos); the receivable value is in currency
units, so the engine compares `charge.total / 100` against it.
`expireAt` embeds `payment.banking_billet.expire_at` as a whole-day
index when present. -/

/-- A line item of a banking charge. -/
structure EfiItem where
  name : String
deriving Repr, DecidableEq

/-- A candidate charge from the banking adapter (transient). -/
structure EfiCharge where
  id : Nat
  charge_id : Option Nat
  total : Nat
  custom_id : Option String
  customerCpf : Option String
  customerCnpj : Option String
  expireAt : Option Int
  items : List EfiItem
deriving Repr, DecidableEq

/-- Keep only the digit characters of a string
(the `replace(/\D/g, "")` idiom). -/
def onlyDigits (s : String) : String :=
  ⟨s.data.filter Char.isDigit⟩

/-- First truthy string of a `a || b || ""` chain: JavaScript treats
both null/undefined and the empty string as falsy. -/
def firstTruthy : List (Option String) → String
  | [] => ""
  | some s :: rest => if s = "" then firstTruthy rest else s
  | none :: rest => firstTruthy rest

/-- `p.isEmpty` test and prefix scan implementing
`String.prototype.includes` over char lists: does `s` contain `p`? -/
def listSub (p : List Char) : List Char → Bool
  | [] => p.isEmpty
  | c :: rest => p.isPrefixOf (c :: rest) || listSub p rest

/-- `a.includes(b)` on strings. -/
def jsIncludes (a b : String) : Bool :=
  listSub b.data a.data

/-- `charge.items?.[0]?.name || ""`. -/
def itemName (c : EfiCharge) : String :=
  match c.items.head? with
  | some it => if it.name = "" then "" else it.name
  | none => ""

/-- Strategy 1: `charge.custom_id === rec.gestaoClickId`. -/
def strategy1 (rec : Receivable) (c : EfiCharge) : Bool :=
  decide (c.custom_id = some rec.gestaoClickId)

/-- Strategy 2: case-insensitive bidirectional substring containment
between the receivable description and the primary line-item name. -/
def strategy2 (rec : Receivable) (c : EfiCharge) : Bool :=
  jsIncludes (itemName c).toLower rec.description.toLower ||
    jsIncludes rec.description.toLower (itemName c).toLower

/-- The value condition of strategies 3 and 4:
`Math.abs(charge.total / 100 - recValue) < 0.10`. -/
def valueMatch (c : EfiCharge) (recValue : ℚ) : Bool :=
  decide (|(c.total : ℚ) / 100 - recValue| < 1 / 10)

/-- The date condition of strategy 3: an expiry date exists and
`Math.abs(differenceInDays(chargeDueDate, recDueDate)) <= 2`; the
`dateMatch` flag stays false when the charge has no expiry date. -/
def dateMatch (c : EfiCharge) (recDueDate : Int) : Bool :=
  match c.expireAt with
  | some ed => decide ((ed - recDueDate).natAbs ≤ 2)
  | none => false

/-- Strategy 3: value within tolerance AND due date within tolerance. -/
def strategy3 (rec : Receivable) (c : EfiCharge) : Bool :=
  valueMatch c rec.value && dateMatch c rec.dueDate

/-- Strategy 4: customer document (digits only) equality AND the value
condition; `(charge.customer?.cpf || charge.customer?.cnpj || "")`. -/
def strategy4 (rec : Receivable) (c : EfiCharge) : Bool :=
  decide (onlyDigits (firstTruthy [c.customerCpf, c.customerCnpj])
      = onlyDigits rec.client.document)
    && valueMatch c rec.value

/-- The matching cascade of `syncEfiBoletos`: strategies in order,
first success wins; strategy 2 runs only when the description is
truthy and strategy 4 only when the client document is truthy. -/
def findMatch (rec : Receivable) (pool : List EfiCharge) : Option EfiCharge :=
  match pool.find? (strategy1 rec) with
  | some c => some c
  | none =>
    match (if rec.description ≠ "" then pool.find? (strategy2 rec) else none) with
    | some c => some c
    | none =>
      match pool.find? (strategy3 rec) with
      | some c => some c
      | none =>
        if rec.client.document ≠ "" then pool.find? (strategy4 rec) else none

/-- One iteration of the `syncEfiBoletos` loop over the working state
(candidate pool, links recorded so far).  On a match whose charge has a
`charge_id`, the receivable is linked and every candidate carrying that
`charge_id` is removed from the pool
(`allCharges.filter(c => c.charge_id !== matchedCharge.charge_id)`).
A matched charge without a `charge_id` raises inside the per-item try
(`matchedCharge.charge_id.toString()`), so nothing is linked or
removed. -/
def syncStep (st : List EfiCharge × List (Nat × Nat)) (rec : Receivable) :
    List EfiCharge × List (Nat × Nat) :=
  match findMatch rec st.1 with
  | none => st
  | some c =>
    match c.charge_id with
    | none => st
    | some cid =>
        (st.1.filter (fun ch => decide (ch.charge_id ≠ some cid)),
         st.2 ++ [(rec.id, cid)])

/-- The reconciliation run: fold the matching loop over the receivables
needing a link and return the (receivableId, chargeId) links recorded. -/
def syncEfiBoletos (recs : List Receivable) (pool : List EfiCharge) :
    List (Nat × Nat) :=
  (recs.foldl syncStep (pool, [])).2

theorem findMatch_mem {rec : Receivable} {pool : List EfiCharge} {c : EfiCharge}
    (h : findMatch rec pool = some c) : c ∈ pool := by
  unfold findMatch at h
  cases h1 : pool.find? (strategy1 rec) with
  | some d =>
      rw [h1] at h
      cases h
      exact List.mem_of_find?_eq_some h1
  | none =>
      rw [h1] at h
      by_cases hd : rec.description = ""
      · simp [hd] at h
        cases h3 : pool.find? (strategy3 rec) with
        | some d =>
            rw [h3] at h
            cases h
            exact List.mem_of_find?_eq_some h3
        | none =>
            rw [h3] at h
            by_cases hdoc : rec.client.document = ""
            · simp [hdoc] at h
            · simp [hdoc] at h
              exact List.mem_of_find?_eq_some h
      · simp [hd] at h
        cases h2 : pool.find? (strategy2 rec) with
        | some d =>
            rw [h2] at h
            cases h
            exact List.mem_of_find?_eq_some h2
        | none =>
            rw [h2] at h
            cases h3 : pool.find? (strategy3 rec) with
            | some d =>
                rw [h3] at h
                cases h
                exact List.mem_of_find?_eq_some h3
            | none =>
                rw [h3] at h
                by_cases hdoc : rec.client.document = ""
                · simp [hdoc] at h
                · simp [hdoc] at h
                  exact List.mem_of_find?_eq_some h

/-- C3: the cascade consults the four strategies strictly in order and
the first success wins: a strategy-1 hit is returned outright (so the
result then satisfies strategy 1 and strategies 2 to 4 are never
consulted), strategy 2 decides only when strategy 1 found nothing,
strategy 3 only when 1 and 2 found nothing, and strategy 4 only when
1 to 3 found nothing. -/
theorem findMatch_cascade (rec : Receivable) (pool : List EfiCharge) :
    (∀ c, pool.find? (strategy1 rec) = some c →
        findMatch rec pool = some c ∧ c ∈ pool ∧ strategy1 rec c = true)
    ∧ (pool.find? (strategy1 rec) = none → rec.description ≠ "" →
        ∀ c, pool.find? (strategy2 rec) = some c → findMatch rec pool = some c)
    ∧ (pool.find? (strategy1 rec) = none →
        (rec.description ≠ "" → pool.find? (strategy2 rec) = none) →
        ∀ c, pool.find? (strategy3 rec) = some c → findMatch rec pool = some c)
    ∧ (pool.find? (strategy1 rec) = none →
        (rec.description ≠ "" → pool.find? (strategy2 rec) = none) →
        pool.find? (strategy3 rec) = none →
        findMatch rec pool =
          if rec.client.document ≠ "" then pool.find? (strategy4 rec) else none) := by
  refine ⟨?_, ?_, ?_, ?_⟩
  · intro c h1
    refine ⟨?_, List.mem_of_find?_eq_some h1, List.find?_some h1⟩
    unfold findMatch
    rw [h1]
  · intro h1 hd c h2
    unfold findMatch
    rw [h1]
    simp [hd, h2]
  · intro h1 h2 c h3
    unfold findMatch
    rw [h1]
    by_cases hd : rec.description = ""
    · simp [hd, h3]
    · simp [hd, h2 hd, h3]
  · intro h1 h2 h3
    unfold findMatch
    rw [h1]
    by_cases hd : rec.description = ""
    · simp [hd, h3]
    · simp [hd, h2 hd, h3]

/-- A demo client for concrete runs of the engines. -/
def demoClient : Client :=
  { id := 1, name := "Acme", document := "12345678000199",
    primaryEmail := some "billing@acme.com", additionalEmails := [] }

/-- A demo receivable: value 1500.00, due at day 100, 10 days overdue. -/
def demoRec : Receivable :=
  { id := 10, gestaoClickId := "2648", clientId := 1, client := demoClient,
    description := "Locacao 2648", value := 1500, dueDate := 100,
    daysOverdue := 10, efiChargeId := none, status := .OVERDUE,
    paidAt := none, paidValue := none }

/-- A decoy candidate that satisfies strategy 3 for `demoRec` but
carries no correlation id. -/
def demoDecoy : EfiCharge :=
  { id := 4, charge_id := some 4, total := 150000, custom_id := none,
    customerCpf := none, customerCnpj := none, expireAt := some 100,
    items := [] }

/-- A candidate whose `custom_id` equals the demo receivable ERP id. -/
def demoCharge1 : EfiCharge :=
  { id := 5, charge_id := some 5, total := 150000, custom_id := some "2648",
    customerCpf := none, customerCnpj := none, expireAt := some 100,
    items := [⟨"Locacao 2648"⟩] }

def demoPool : List EfiCharge := [demoDecoy, demoCharge1]

/-- C3 witness: with a strategy-3 decoy first in the pool, the cascade
still returns the strategy-1 match. -/
theorem findMatch_cascade_witness :
    demoPool.find? (strategy1 demoRec) = some demoCharge1
    ∧ (findMatch demoRec demoPool = some demoCharge1
        ∧ demoCharge1 ∈ demoPool ∧ strategy1 demoRec demoCharge1 = true) :=
  ⟨by decide, (findMatch_cascade demoRec demoPool).1 demoCharge1 (by decide)⟩

/-! ### The value comparison in binary64 (claim C4)

The source evaluates `Math.abs(charge.total / 100 - recValue) < 0.10`
in IEEE-754 binary64 arithmetic, so the 0.10 boundary behavior is
decided by rounding, not by exact rationals.  The model below
represents a finite double as an integer pair (m, e) of value m·2^e
and implements division, subtraction and the literal 0.10 with correct
round-to-nearest, ties-to-even; it is valid for values in the binary64
normal range, which covers the monetary magnitudes involved.  The
`valueMatch` definition above is the exact-rational idealization used
by the cascade; `valueMatchFP` is the bit-accurate evaluation. -/

/-- Bit length of a natural number (fuel-driven so that the kernel can
evaluate it; 256 bits is ample for the magnitudes involved). -/
def bitLenAux : Nat → Nat → Nat
  | 0, _ => 0
  | fuel + 1, n => if n = 0 then 0 else bitLenAux fuel (n / 2) + 1

def bitLen (n : Nat) : Nat := bitLenAux 256 n

/-- Scale the fraction num/den by 2^(-e) into an integer fraction. -/
def scaleParts (num den : Nat) (e : Int) : Nat × Nat :=
  if 0 ≤ e then (num, den * 2 ^ e.toNat) else (num * 2 ^ (-e).toNat, den)

/-- Round num/(den·2^e) to an integer, half to even. -/
def roundAt (num den : Nat) (e : Int) : Nat :=
  let p := scaleParts num den e
  let q := p.1 / p.2
  let r := p.1 % p.2
  if p.2 < 2 * r then q + 1
  else if 2 * r < p.2 then q
  else if q % 2 = 0 then q else q + 1

/-- Round the positive fraction num/den to the nearest binary64: pick
the exponent e that puts the significand in [2^52, 2^53), round half
to even, and renormalize when rounding carries to 2^53. -/
def f64ofNatPair (num den : Nat) : Nat × Int :=
  let e0 : Int := (bitLen num : Int) - (bitLen den : Int) - 52
  let p0 := scaleParts num den e0
  let e : Int := if p0.1 / p0.2 < 2 ^ 52 then e0 - 1 else e0
  let m := roundAt num den e
  if m = 2 ^ 53 then (2 ^ 52, e + 1) else (m, e)

/-- Round the signed fraction num/den to the nearest binary64 value,
as an integer pair (m, e) of value m·2^e. -/
def f64ofRat (num : Int) (den : Nat) : Int × Int :=
  if num = 0 then (0, 0)
  else if 0 < num then
    let p := f64ofNatPair num.toNat den
    ((p.1 : Int), p.2)
  else
    let p := f64ofNatPair (-num).toNat den
    (-(p.1 : Int), p.2)

/-- Binary64 subtraction: the difference of two represented values is
an exact scaled integer, rounded once to the nearest double. -/
def f64sub (a b : Int × Int) : Int × Int :=
  let e := min a.2 b.2
  let n := a.1 * 2 ^ (a.2 - e).toNat - b.1 * 2 ^ (b.2 - e).toNat
  if 0 ≤ e then f64ofRat (n * 2 ^ e.toNat) 1
  else f64ofRat n (2 ^ (-e).toNat)

/-- Exact comparison of two represented binary64 values. -/
def f64lt (a b : Int × Int) : Bool :=
  let e := min a.2 b.2
  decide (a.1 * 2 ^ (a.2 - e).toNat < b.1 * 2 ^ (b.2 - e).toNat)

/-- `Math.abs` on a represented binary64 value (exact). -/
def f64abs (a : Int × Int) : Int × Int := (|a.1|, a.2)

/-- The strategy-3/4 value condition as the source computes it in
binary64: `Math.abs(charge.total / 100 - recValue) < 0.10`, with
`recValue` the double held for the receivable value and 0.10 the
double literal. -/
def valueMatchFP (total : Nat) (recValue : Int × Int) : Bool :=
  f64lt (f64abs (f64sub (f64ofRat (total : Int) 100) recValue))
    (f64ofRat 1 10)

/-- C4 counterexample: at receivable value 1500.00 and candidate total
150010 the nominal difference is exactly 0.10, yet the binary64
evaluation of the source comparison MATCHES, because the computed
double difference (1500.1 rounded, minus 1500) falls below the double
0.1; the claim that a difference of exactly 0.10 never satisfies the
value condition is false of the program. -/
theorem valueToleranceFP_counterexample :
    |(150010 : ℚ) / 100 - 1500| = 1 / 10
    ∧ valueMatchFP 150010 (1500, 0) = true := by
  constructor
  · norm_num
  · decide

/-- C4 amended: the value condition is the strict binary64 comparison
`|total/100 - value| < 0.1`, so a candidate at nominal distance
exactly 0.10 may fall on either side of the boundary depending on
rounding: at value 1500.00 / total 150010 it matches, while at value
0.00 / total 10 the computed difference is bit-identical to the 0.1
literal and the strict comparison rejects it; a difference of 0.09
(value 1500.00 / total 150009) matches. -/
theorem valueToleranceFP_boundary :
    valueMatchFP 150010 (1500, 0) = true
    ∧ (f64sub (f64ofRat 10 100) (0, 0) = f64ofRat 1 10
        ∧ valueMatchFP 10 (0, 0) = false)
    ∧ valueMatchFP 150009 (1500, 0) = true := by
  decide

/-- C5: strategy 3 succeeds exactly when the value condition holds AND
the candidate has an expiry date within 2 days (inclusive) of the
receivable due date; a date difference of exactly 2 days matches, 3 or
more days does not, and a candidate with no expiry date never matches
via strategy 3. -/
theorem strategy3_spec (rec : Receivable) (c : EfiCharge) :
    (strategy3 rec c = true ↔
        valueMatch c rec.value = true
        ∧ ∃ ed, c.expireAt = some ed ∧ (ed - rec.dueDate).natAbs ≤ 2)
    ∧ (c.expireAt = none → strategy3 rec c = false)
    ∧ (∀ ed, c.expireAt = some ed → (ed - rec.dueDate).natAbs = 2 →
        valueMatch c rec.value = true → strategy3 rec c = true)
    ∧ (∀ ed, c.expireAt = some ed → 3 ≤ (ed - rec.dueDate).natAbs →
        strategy3 rec c = false) := by
  refine ⟨?_, ?_, ?_, ?_⟩
  · cases he : c.expireAt with
    | none => simp [strategy3, dateMatch, he]
    | some ed => simp [strategy3, dateMatch, he, and_comm]
  · intro he
    simp [strategy3, dateMatch, he]
  · intro ed he hd hv
    simp [strategy3, dateMatch, he, hd, hv]
  · intro ed he hd
    have : ¬ (ed - rec.dueDate).natAbs ≤ 2 := by omega
    simp [strategy3, dateMatch, he, this]

/-- Candidate at the exact 2-day date tolerance for the demo
receivable (expiry day 102 against due day 100). -/
def demoChargeEdge : EfiCharge :=
  { id := 8, charge_id := some 8, total := 150000, custom_id := none,
    customerCpf := none, customerCnpj := none, expireAt := some 102,
    items := [] }

/-- C5 witness: at a date difference of exactly 2 days and a matching
value, strategy 3 accepts the candidate. -/
theorem valueMatch_demoEdge : valueMatch demoChargeEdge demoRec.value = true := by
  simp only [valueMatch, decide_eq_true_eq]
  norm_num [demoChargeEdge, demoRec]

theorem strategy3_spec_witness :
    demoChargeEdge.expireAt = some 102
    ∧ ((102 : Int) - demoRec.dueDate).natAbs = 2
    ∧ valueMatch demoChargeEdge demoRec.value = true
    ∧ strategy3 demoRec demoChargeEdge = true :=
  ⟨by decide, by decide, valueMatch_demoEdge,
    (strategy3_spec demoRec demoChargeEdge).2.2.1 102 (by decide) (by decide)
      valueMatch_demoEdge⟩

theorem syncStep_preserves (st : List EfiCharge × List (Nat × Nat)) (rec : Receivable)
    (h1 : (st.2.map Prod.snd).Nodup)
    (h2 : ∀ l ∈ st.2, ∀ ch ∈ st.1, ch.charge_id ≠ some l.2) :
    ((syncStep st rec).2.map Prod.snd).Nodup
    ∧ ∀ l ∈ (syncStep st rec).2, ∀ ch ∈ (syncStep st rec).1,
        ch.charge_id ≠ some l.2 := by
  cases hm : findMatch rec st.1 with
  | none =>
      simp only [syncStep, hm]
      exact ⟨h1, h2⟩
  | some c =>
    cases hc : c.charge_id with
    | none =>
        simp only [syncStep, hm, hc]
        exact ⟨h1, h2⟩
    | some cid =>
      have hcm : c ∈ st.1 := findMatch_mem hm
      simp only [syncStep, hm, hc]
      constructor
      · simp only [List.map_append, List.map_cons, List.map_nil]
        rw [List.nodup_append]
        refine ⟨h1, List.nodup_singleton _, ?_⟩
        intro a ha hb
        simp at hb
        subst hb
        rcases List.mem_map.mp ha with ⟨l, hl, hsnd⟩
        exact h2 l hl c hcm (by rw [hc, hsnd])
      · intro l hl ch hch
        have hch2 := List.mem_filter.mp hch
        rcases List.mem_append.mp hl with hold | hnew
        · exact h2 l hold ch hch2.1
        · simp at hnew
          subst hnew
          simpa using hch2.2

theorem syncLoop_invariant (recs : List Receivable) :
    ∀ (st : List EfiCharge × List (Nat × Nat)),
      (st.2.map Prod.snd).Nodup →
      (∀ l ∈ st.2, ∀ ch ∈ st.1, ch.charge_id ≠ some l.2) →
      ((recs.foldl syncStep st).2.map Prod.snd).Nodup := by
  induction recs with
  | nil => intro st h1 _; simpa using h1
  | cons rec rest ih =>
      intro st h1 h2
      have hstep := syncStep_preserves st rec h1 h2
      simpa using ih (syncStep st rec) hstep.1 hstep.2

/-- C6: within one reconciliation run a matched candidate is removed
from the pool before the next receivable is processed, so the links
recorded by the run carry pairwise distinct charge ids: no candidate
charge is ever linked to two receivables in the same run. -/
theorem syncEfiBoletos_noDoubleAssign (recs : List Receivable)
    (pool : List EfiCharge) :
    ((syncEfiBoletos recs pool).map Prod.snd).Nodup := by
  unfold syncEfiBoletos
  exact syncLoop_invariant recs (pool, []) (by simp) (by simp)

/-! ## Dispatch Engine (chargeService) -/

/-- Push a nullable string if truthy
(`if (receivable.client.primaryEmail) emails.push(...)`). -/
def pushTruthy : Option String → List String
  | some s => if s = "" then [] else [s]
  | none => []

/-- Recipient list of the automatic path: primary email when truthy,
then every active additional email, in order and with no
de-duplication. -/
def autoRecipients (client : Client) : List String :=
  pushTruthy client.primaryEmail
    ++ (client.additionalEmails.filter (·.active)).map (·.email)

/-- `[...new Set(emails)]`: keep the first occurrence of each element. -/
def jsSetDedup : List String → List String
  | [] => []
  | x :: xs => x :: jsSetDedup (xs.filter (fun y => decide (y ≠ x)))
termination_by l => l.length
decreasing_by
  simp only [List.length_cons]
  exact Nat.lt_succ_of_le (List.length_filter_le _ _)

/-- Recipient list of the manual path: caller extras, then primary,
then active additional emails, de-duplicated via `new Set`. -/
def manualRecipients (extra : List String) (client : Client) : List String :=
  jsSetDedup (extra ++ pushTruthy client.primaryEmail
    ++ (client.additionalEmails.filter (·.active)).map (·.email))

theorem mem_jsSetDedup {a : String} :
    ∀ {l : List String}, a ∈ jsSetDedup l → a ∈ l
  | [], h => by simp [jsSetDedup] at h
  | x :: xs, h => by
      rw [jsSetDedup] at h
      rcases List.mem_cons.mp h with hx | hrec
      · simp [hx]
      · have := mem_jsSetDedup hrec
        exact List.mem_cons_of_mem _ (List.mem_filter.mp this).1
termination_by l => l.length
decreasing_by
  simp only [List.length_cons]
  exact Nat.lt_succ_of_le (List.length_filter_le _ _)

theorem jsSetDedup_nodup : ∀ (l : List String), (jsSetDedup l).Nodup
  | [] => by simp [jsSetDedup]
  | x :: xs => by
      rw [jsSetDedup]
      refine List.nodup_cons.mpr ⟨?_, jsSetDedup_nodup _⟩
      intro hx
      have := List.mem_filter.mp (mem_jsSetDedup hx)
      simp at this
termination_by l => l.length
decreasing_by
  simp only [List.length_cons]
  exact Nat.lt_succ_of_le (List.length_filter_le _ _)

/-- C7 counterexample: a client whose primary email also appears as an
active additional email; the automatic path resolves a recipient list
with a duplicate address. -/
def dupClient : Client :=
  { id := 2, name := "Dup", document := "111",
    primaryEmail := some "a@x.com",
    additionalEmails := [{ email := "a@x.com", active := true }] }

/-- C7 counterexample: the automatic dispatch path does not
de-duplicate; for `dupClient` it resolves the same address twice. -/
theorem autoRecipients_duplicate :
    autoRecipients dupClient = ["a@x.com", "a@x.com"]
    ∧ ¬ (autoRecipients dupClient).Nodup := by
  constructor
  · rfl
  · decide

/-- C7 amended: only the manual path de-duplicates; for every caller
extras and client, the manual recipient list contains no duplicate
address (the automatic path list is primary plus active additional
emails without de-duplication). -/
theorem manualRecipients_nodup (extra : List String) (client : Client) :
    (manualRecipients extra client).Nodup :=
  jsSetDedup_nodup _

/-- Status of a SentEmail audit record. -/
inductive EmailStatus
  | SENT
  | FAILED
deriving Repr, DecidableEq

/-- A SentEmail audit/dedup record; `ruleId` is none for manual sends. -/
structure SentEmail where
  clientId : Nat
  receivableId : Nat
  templateId : Nat
  ruleId : Option Nat
  toEmails : List String
  status : EmailStatus
deriving Repr, DecidableEq

/-- Aggregate counters of an automatic dispatch run. -/
structure ChargeStats where
  sent : Nat
  failed : Nat
deriving Repr, DecidableEq

/-- The idempotency query of the engine:
`prisma.sentEmail.findFirst({ receivableId, ruleId, status: SENT })`.
Only records with status SENT are consulted. -/
def hasSentRecord (db : List SentEmail) (rid ruleId : Nat) : Bool :=
  db.any (fun e => decide (e.receivableId = rid)
    && decide (e.ruleId = some ruleId) && decide (e.status = .SENT))

/-- One iteration of the `processAutomaticCharges` loop for a single
receivable over the threaded database of SentEmail rows and run
counters.  `oracle` gives the outcome the email collaborator returns
for a (receivableId, ruleId) send; the collaborator catches its own
errors and returns a boolean, so no exception escapes the send. -/
def processOne (rules : List ChargeRule) (oracle : Nat → Nat → Bool)
    (st : List SentEmail × ChargeStats) (rec : Receivable) :
    List SentEmail × ChargeStats :=
  match selectRule rules rec.daysOverdue with
  | none => st
  | some rule =>
    if !rule.hasTemplate then st
    else if hasSentRecord st.1 rec.id rule.id then st
    else if (autoRecipients rec.client).isEmpty then st
    else
      (st.1 ++ [{ clientId := rec.clientId, receivableId := rec.id,
                  templateId := rule.templateId, ruleId := some rule.id,
                  toEmails := autoRecipients rec.client,
                  status := if oracle rec.id rule.id then .SENT else .FAILED }],
       if oracle rec.id rule.id then { st.2 with sent := st.2.sent + 1 }
       else { st.2 with failed := st.2.failed + 1 })

/-- The automatic dispatch batch: with no active rule the run returns
immediately, otherwise it folds the per-receivable step over the
overdue working set, threading the SentEmail table. -/
def processAutomaticCharges (rules : List ChargeRule)
    (receivables : List Receivable) (oracle : Nat → Nat → Bool)
    (db : List SentEmail) : List SentEmail × ChargeStats :=
  if rules.isEmpty then (db, ⟨0, 0⟩)
  else receivables.foldl (processOne rules oracle) (db, ⟨0, 0⟩)

/-- Two rows violate the at-most-once-per-tier invariant when both are
SENT automatic rows for the same (receivableId, ruleId) pair. -/
def SameSentTier (a b : SentEmail) : Prop :=
  a.status = .SENT ∧ b.status = .SENT ∧ a.receivableId = b.receivableId
    ∧ a.ruleId ≠ none ∧ a.ruleId = b.ruleId

instance : ∀ a b : SentEmail, Decidable (SameSentTier a b) := by
  intro a b
  unfold SameSentTier
  infer_instance

/-- The at-most-once-per-tier invariant on the SentEmail table. -/
def AtMostOncePerTier (db : List SentEmail) : Prop :=
  db.Pairwise (fun a b => ¬ SameSentTier a b)

/-- The SENT rows of the table. -/
def sentRows (db : List SentEmail) : List SentEmail :=
  db.filter (fun e => decide (e.status = .SENT))

theorem hasSentRecord_append {db : List SentEmail} {ext : List SentEmail}
    {r i : Nat} (h : hasSentRecord db r i = true) :
    hasSentRecord (db ++ ext) r i = true := by
  simp only [hasSentRecord, List.any_append, Bool.or_eq_true]
  exact Or.inl h

theorem processOne_extends (rules : List ChargeRule) (oracle : Nat → Nat → Bool)
    (st : List SentEmail × ChargeStats) (rec : Receivable) :
    ∃ ext, (processOne rules oracle st rec).1 = st.1 ++ ext := by
  cases hsel : selectRule rules rec.daysOverdue with
  | none => exact ⟨[], by simp [processOne, hsel]⟩
  | some rule =>
    by_cases ht : rule.hasTemplate
    · by_cases hsent : hasSentRecord st.1 rec.id rule.id
      · exact ⟨[], by simp [processOne, hsel, ht, hsent]⟩
      · by_cases he : (autoRecipients rec.client).isEmpty
        · exact ⟨[], by simp [processOne, hsel, ht, hsent, he]⟩
        · exact ⟨[⟨rec.clientId, rec.id, rule.templateId, some rule.id,
              autoRecipients rec.client,
              if oracle rec.id rule.id then .SENT else .FAILED⟩],
            by simp [processOne, hsel, ht, hsent, he]⟩
    · exact ⟨[], by simp [processOne, hsel, ht]⟩

theorem foldl_processOne_extends (rules : List ChargeRule)
    (oracle : Nat → Nat → Bool) :
    ∀ (recs : List Receivable) (st : List SentEmail × ChargeStats),
      ∃ ext, (recs.foldl (processOne rules oracle) st).1 = st.1 ++ ext
  | [], st => ⟨[], by simp⟩
  | rec :: rest, st => by
      obtain ⟨e1, he1⟩ := processOne_extends rules oracle st rec
      obtain ⟨e2, he2⟩ := foldl_processOne_extends rules oracle rest
        (processOne rules oracle st rec)
      exact ⟨e1 ++ e2, by simp [he2, he1]⟩

theorem hasSentRecord_false_iff {db : List SentEmail} {r i : Nat} :
    hasSentRecord db r i = false ↔
      ∀ e ∈ db, ¬(e.receivableId = r ∧ e.ruleId = some i ∧ e.status = .SENT) := by
  simp only [hasSentRecord, List.any_eq_false, Bool.and_eq_true, decide_eq_true_eq]
  constructor
  · intro h e he hc
    exact h e he ⟨⟨hc.1, hc.2.1⟩, hc.2.2⟩
  · intro h e he hc
    exact h e he ⟨hc.1.1, hc.1.2, hc.2⟩

theorem atMostOnce_append_one {db : List SentEmail} {e : SentEmail}
    (hinv : AtMostOncePerTier db) (h : ∀ a ∈ db, ¬ SameSentTier a e) :
    AtMostOncePerTier (db ++ [e]) := by
  unfold AtMostOncePerTier at hinv ⊢
  rw [List.pairwise_append]
  refine ⟨hinv, List.pairwise_singleton _ _, ?_⟩
  intro a ha b hb
  simp only [List.mem_singleton] at hb
  subst hb
  exact h a ha

theorem processOne_preserves_inv (rules : List ChargeRule)
    (oracle : Nat → Nat → Bool) (st : List SentEmail × ChargeStats)
    (rec : Receivable) (hinv : AtMostOncePerTier st.1) :
    AtMostOncePerTier (processOne rules oracle st rec).1 := by
  cases hsel : selectRule rules rec.daysOverdue with
  | none => simpa [processOne, hsel] using hinv
  | some rule =>
    by_cases ht : rule.hasTemplate
    · by_cases hsent : hasSentRecord st.1 rec.id rule.id
      · simpa [processOne, hsel, ht, hsent] using hinv
      · by_cases he : (autoRecipients rec.client).isEmpty
        · simpa [processOne, hsel, ht, hsent, he] using hinv
        · simp only [processOne, hsel, ht, hsent, he, Bool.not_true,
            Bool.false_eq_true, if_false, Bool.not_false, if_true]
          simp only [Bool.not_eq_true] at hsent he
          refine atMostOnce_append_one hinv ?_
          intro a ha hsame
          cases hok : oracle rec.id rule.id with
          | false =>
              rw [hok] at hsame
              rcases hsame with ⟨_, hb, _, _, _⟩
              simp at hb
          | true =>
              rw [hok] at hsame
              rcases hsame with ⟨ha1, _, hrid, _, hrule⟩
              simp only at hrid hrule
              exact (hasSentRecord_false_iff.mp hsent) a ha ⟨hrid, hrule, ha1⟩
    · simpa [processOne, hsel, ht] using hinv

theorem foldl_processOne_preserves_inv (rules : List ChargeRule)
    (oracle : Nat → Nat → Bool) :
    ∀ (recs : List Receivable) (st : List SentEmail × ChargeStats),
      AtMostOncePerTier st.1 →
      AtMostOncePerTier ((recs.foldl (processOne rules oracle) st).1)
  | [], st, h => by simpa using h
  | rec :: rest, st, h => by
      simpa using foldl_processOne_preserves_inv rules oracle rest
        (processOne rules oracle st rec)
        (processOne_preserves_inv rules oracle st rec h)

/-- The post-run coverage fact: after a run, every receivable of the
working set whose applicable rule has a template, whose client
resolves recipients and whose send would succeed already has a SENT
row recorded for its (receivableId, ruleId) pair. -/
def Covered (rules : List ChargeRule) (oracle : Nat → Nat → Bool)
    (recs : List Receivable) (db : List SentEmail) : Prop :=
  ∀ rec ∈ recs, ∀ rule, selectRule rules rec.daysOverdue = some rule →
    rule.hasTemplate = true → (autoRecipients rec.client).isEmpty = false →
    oracle rec.id rule.id = true → hasSentRecord db rec.id rule.id = true

theorem processOne_covers_self (rules : List ChargeRule)
    (oracle : Nat → Nat → Bool) (st : List SentEmail × ChargeStats)
    (rec : Receivable) (rule : ChargeRule)
    (hsel : selectRule rules rec.daysOverdue = some rule)
    (ht : rule.hasTemplate = true)
    (he : (autoRecipients rec.client).isEmpty = false)
    (hok : oracle rec.id rule.id = true) :
    hasSentRecord (processOne rules oracle st rec).1 rec.id rule.id = true := by
  by_cases hsent : hasSentRecord st.1 rec.id rule.id
  · simp [processOne, hsel, ht, hsent]
  · simp only [processOne, hsel, ht, hsent, he, Bool.not_true,
      Bool.false_eq_true, if_false, Bool.not_false, if_true]
    simp only [hasSentRecord, List.any_append, Bool.or_eq_true]
    right
    simp [hok]

theorem run_covers (rules : List ChargeRule) (oracle : Nat → Nat → Bool) :
    ∀ (recs : List Receivable) (st : List SentEmail × ChargeStats),
      Covered rules oracle recs ((recs.foldl (processOne rules oracle) st).1)
  | [], st => by intro rec hrec; simp at hrec
  | rec :: rest, st => by
      intro r hr rule hsel ht he hok
      rcases List.mem_cons.mp hr with hrx | hrt
      · subst hrx
        have h1 := processOne_covers_self rules oracle st r rule hsel ht he hok
        obtain ⟨ext, hext⟩ := foldl_processOne_extends rules oracle rest
          (processOne rules oracle st r)
        simp only [List.foldl_cons]
        rw [hext]
        exact hasSentRecord_append h1
      · exact run_covers rules oracle rest (processOne rules oracle st rec)
          r hrt rule hsel ht he hok

theorem covered_extends {rules : List ChargeRule} {oracle : Nat → Nat → Bool}
    {recs : List Receivable} {db ext : List SentEmail}
    (h : Covered rules oracle recs db) :
    Covered rules oracle recs (db ++ ext) := by
  intro rec hrec rule hsel ht he hok
  exact hasSentRecord_append (h rec hrec rule hsel ht he hok)

theorem processOne_frozen (rules : List ChargeRule)
    (oracle : Nat → Nat → Bool) (st : List SentEmail × ChargeStats)
    (rec : Receivable)
    (hcov : ∀ rule, selectRule rules rec.daysOverdue = some rule →
      rule.hasTemplate = true → (autoRecipients rec.client).isEmpty = false →
      oracle rec.id rule.id = true → hasSentRecord st.1 rec.id rule.id = true) :
    (processOne rules oracle st rec).2.sent = st.2.sent
    ∧ sentRows (processOne rules oracle st rec).1 = sentRows st.1 := by
  cases hsel : selectRule rules rec.daysOverdue with
  | none => simp [processOne, hsel]
  | some rule =>
    by_cases ht : rule.hasTemplate
    · by_cases hsent : hasSentRecord st.1 rec.id rule.id
      · simp [processOne, hsel, ht, hsent]
      · by_cases he : (autoRecipients rec.client).isEmpty
        · simp [processOne, hsel, ht, hsent, he]
        · cases hok : oracle rec.id rule.id with
          | true =>
              exact absurd (hcov rule hsel ht (by simpa using he) hok)
                (by simpa using hsent)
          | false =>
              simp only [processOne, hsel, ht, hsent, he, hok, Bool.not_true,
                Bool.false_eq_true, if_false, Bool.not_false, if_true]
              exact ⟨by trivial, by simp [sentRows, List.filter_append]⟩
    · simp [processOne, hsel, ht]

theorem run2_frozen (rules : List ChargeRule) (oracle : Nat → Nat → Bool) :
    ∀ (recs : List Receivable) (st : List SentEmail × ChargeStats),
      Covered rules oracle recs st.1 →
      (recs.foldl (processOne rules oracle) st).2.sent = st.2.sent
      ∧ sentRows ((recs.foldl (processOne rules oracle) st).1) = sentRows st.1
  | [], st, _ => by simp
  | rec :: rest, st, hcov => by
      have hrec : ∀ rule, selectRule rules rec.daysOverdue = some rule →
          rule.hasTemplate = true → (autoRecipients rec.client).isEmpty = false →
          oracle rec.id rule.id = true →
          hasSentRecord st.1 rec.id rule.id = true :=
        fun rule hsel ht he hok =>
          hcov rec (List.mem_cons_self rec rest) rule hsel ht he hok
      have hstep := processOne_frozen rules oracle st rec hrec
      obtain ⟨ext, hext⟩ := processOne_extends rules oracle st rec
      have hcov2 : Covered rules oracle rest ((processOne rules oracle st rec).1) := by
        rw [hext]
        exact covered_extends (fun r hr => hcov r (List.mem_cons_of_mem rec hr))
      have hrest := run2_frozen rules oracle rest
        (processOne rules oracle st rec) hcov2
      simp only [List.foldl_cons]
      exact ⟨hrest.1.trans hstep.1, hrest.2.trans hstep.2⟩

/-- C1: the automatic dispatch engine never records a second SENT
SentEmail for the same (receivableId, ruleId) pair: the run preserves
the at-most-once-per-tier invariant, and an immediate second run of
the batch with no state change (same rules, working set and send
outcomes) sends nothing — its sent counter is zero and it adds no SENT
row to the table. -/
theorem processAutomaticCharges_atMostOnce (rules : List ChargeRule)
    (receivables : List Receivable) (oracle : Nat → Nat → Bool)
    (db : List SentEmail) (h : AtMostOncePerTier db) :
    AtMostOncePerTier (processAutomaticCharges rules receivables oracle db).1
    ∧ (processAutomaticCharges rules receivables oracle
        (processAutomaticCharges rules receivables oracle db).1).2.sent = 0
    ∧ sentRows ((processAutomaticCharges rules receivables oracle
        (processAutomaticCharges rules receivables oracle db).1).1)
      = sentRows ((processAutomaticCharges rules receivables oracle db).1) := by
  by_cases hr : rules.isEmpty
  · simp [processAutomaticCharges, hr, h]
  · simp only [processAutomaticCharges, hr, if_false, Bool.false_eq_true]
    refine ⟨foldl_processOne_preserves_inv rules oracle receivables (db, ⟨0, 0⟩) h, ?_⟩
    have hcov : Covered rules oracle receivables
        ((receivables.foldl (processOne rules oracle) (db, ⟨0, 0⟩)).1) :=
      run_covers rules oracle receivables (db, ⟨0, 0⟩)
    have := run2_frozen rules oracle receivables
      ((receivables.foldl (processOne rules oracle) (db, ⟨0, 0⟩)).1, ⟨0, 0⟩) hcov
    exact this

/-- C1 witness: one active tier, one overdue receivable with a
recipient, reliably succeeding sends, empty table. -/
theorem processAutomaticCharges_atMostOnce_witness :
    AtMostOncePerTier ([] : List SentEmail)
    ∧ (AtMostOncePerTier (processAutomaticCharges demoRules [demoRec]
          (fun _ _ => true) []).1
      ∧ (processAutomaticCharges demoRules [demoRec] (fun _ _ => true)
          (processAutomaticCharges demoRules [demoRec] (fun _ _ => true) []).1).2.sent = 0
      ∧ sentRows ((processAutomaticCharges demoRules [demoRec] (fun _ _ => true)
          (processAutomaticCharges demoRules [demoRec] (fun _ _ => true) []).1).1)
        = sentRows ((processAutomaticCharges demoRules [demoRec]
          (fun _ _ => true) []).1)) :=
  ⟨List.Pairwise.nil,
   processAutomaticCharges_atMostOnce demoRules [demoRec] (fun _ _ => true) []
     List.Pairwise.nil⟩

/-- C10: the idempotency check consults only SENT records, so a
(receivableId, ruleId) pair whose previous attempt was recorded FAILED
does not block dispatch: on a later run with the same applicable rule
the engine attempts the pair again and records an additional SentEmail
row for it. -/
theorem failedAttemptDoesNotBlock (rules : List ChargeRule)
    (oracle : Nat → Nat → Bool) (db : List SentEmail)
    (rec : Receivable) (rule : ChargeRule)
    (hsel : selectRule rules rec.daysOverdue = some rule)
    (ht : rule.hasTemplate = true)
    (_hfailed : ∃ e ∈ db, e.receivableId = rec.id ∧ e.ruleId = some rule.id
        ∧ e.status = .FAILED)
    (hnosent : hasSentRecord db rec.id rule.id = false)
    (he : (autoRecipients rec.client).isEmpty = false)
    (hok : oracle rec.id rule.id = true) :
    (processAutomaticCharges rules [rec] oracle db).1
      = db ++ [⟨rec.clientId, rec.id, rule.templateId, some rule.id,
          autoRecipients rec.client, .SENT⟩]
    ∧ (processAutomaticCharges rules [rec] oracle db).2.sent = 1 := by
  have hne : rules.isEmpty = false := by
    cases rules with
    | nil => simp [selectRule] at hsel
    | cons a l => simp
  simp [processAutomaticCharges, hne, processOne, hsel, ht, hnosent, he, hok]

/-- A FAILED row for the demo pair (receivable 10, rule 2). -/
def demoFailedRow : SentEmail :=
  ⟨1, 10, 2, some 2, ["billing@acme.com"], .FAILED⟩

/-- C10 witness: with only a FAILED row for the pair on file, the next
run sends and appends a SENT row for the same pair. -/
theorem failedAttemptDoesNotBlock_witness :
    selectRule demoRules demoRec.daysOverdue = some (demoRule 2 7)
    ∧ hasSentRecord [demoFailedRow] demoRec.id (demoRule 2 7).id = false
    ∧ ((processAutomaticCharges demoRules [demoRec] (fun _ _ => true)
          [demoFailedRow]).1
        = [demoFailedRow] ++ [⟨demoRec.clientId, demoRec.id,
            (demoRule 2 7).templateId, some (demoRule 2 7).id,
            autoRecipients demoRec.client, .SENT⟩]
      ∧ (processAutomaticCharges demoRules [demoRec] (fun _ _ => true)
          [demoFailedRow]).2.sent = 1) :=
  ⟨by decide, by decide,
   failedAttemptDoesNotBlock demoRules (fun _ _ => true) [demoFailedRow]
     demoRec (demoRule 2 7) (by decide) (by decide)
     ⟨demoFailedRow, by decide, by decide, by decide, by decide⟩
     (by decide) (by decide) (by decide)⟩

/-! ## Settlement Coordinator (chargeService.settleReceivable) -/

/-- JavaScript truthiness of a nullable string field. -/
def truthy : Option String → Bool
  | some s => decide (s ≠ "")
  | none => false

/-- An audit-log entry created by the settlement coordinator. -/
structure AuditEntry where
  userId : Nat
  action : String
  entity : String
  entityId : Nat
  paidValue : ℚ
  paidAt : Int
deriving Repr, DecidableEq

/-- The settlement coordinator: look the receivable up, call the ERP
settle when an ERP id is carried, then the banking settle when a
banking id is carried, then set the local status to PAID with the
payment facts and append the audit entry.  `gc` and `efi` are the
outcomes the two adapter calls would produce; a raising call aborts
the whole operation with the database untouched (the catch block
rethrows).  The returned triple is (call result, receivable row, audit
log). -/
def settleReceivableRun (gc efi : Except String Bool)
    (rec? : Option Receivable) (audit : List AuditEntry)
    (pv : ℚ) (pa : Int) (uid : Nat) :
    Except String Bool × Option Receivable × List AuditEntry :=
  match rec? with
  | none => (Except.error "Conta nao encontrada", none, audit)
  | some rec =>
    match (if rec.gestaoClickId ≠ "" then gc else Except.ok true) with
    | Except.error e => (Except.error e, some rec, audit)
    | Except.ok _ =>
      match (if truthy rec.efiChargeId then efi else Except.ok true) with
      | Except.error e => (Except.error e, some rec, audit)
      | Except.ok _ =>
        (Except.ok true,
         some { rec with status := RecStatus.PAID,
                         paidAt := some pa, paidValue := some pv },
         audit ++ [⟨uid, "SETTLE_RECEIVABLE", "Receivable", rec.id, pv, pa⟩])

/-- C8: settlement is all-or-nothing with respect to adapter raising:
if the ERP settle raises (when consulted), or the banking settle
raises (when consulted, the ERP call having returned), the error
propagates and neither the PAID update nor the audit entry happens;
when no consulted call raises, the receivable becomes PAID with the
payment facts and the audit entry is appended. -/
theorem settleReceivable_atomic (gc efi : Except String Bool)
    (rec : Receivable) (audit : List AuditEntry)
    (pv : ℚ) (pa : Int) (uid : Nat) :
    (∀ e, rec.gestaoClickId ≠ "" → gc = Except.error e →
        settleReceivableRun gc efi (some rec) audit pv pa uid
          = (Except.error e, some rec, audit))
    ∧ (∀ e, (rec.gestaoClickId ≠ "" → ∃ b, gc = Except.ok b) →
        truthy rec.efiChargeId = true → efi = Except.error e →
        settleReceivableRun gc efi (some rec) audit pv pa uid
          = (Except.error e, some rec, audit))
    ∧ ((rec.gestaoClickId ≠ "" → ∃ b, gc = Except.ok b) →
       (truthy rec.efiChargeId = true → ∃ b, efi = Except.ok b) →
        settleReceivableRun gc efi (some rec) audit pv pa uid
          = (Except.ok true,
             some { rec with status := RecStatus.PAID,
                             paidAt := some pa, paidValue := some pv },
             audit ++ [⟨uid, "SETTLE_RECEIVABLE", "Receivable", rec.id, pv, pa⟩])) := by
  refine ⟨?_, ?_, ?_⟩
  · intro e hid hgc
    simp [settleReceivableRun, hid, hgc]
  · intro e hgc hefi hefiErr
    by_cases h : rec.gestaoClickId ≠ ""
    · obtain ⟨b, hb⟩ := hgc h
      simp [settleReceivableRun, h, hb, hefi, hefiErr]
    · simp [settleReceivableRun, h, hefi, hefiErr]
  · intro hgc hefi
    by_cases h : rec.gestaoClickId ≠ ""
    · obtain ⟨b, hb⟩ := hgc h
      by_cases h2 : truthy rec.efiChargeId = true
      · obtain ⟨b2, hb2⟩ := hefi h2
        simp [settleReceivableRun, h, hb, h2, hb2]
      · simp [settleReceivableRun, h, hb, h2]
    · by_cases h2 : truthy rec.efiChargeId = true
      · obtain ⟨b2, hb2⟩ := hefi h2
        simp [settleReceivableRun, h, h2, hb2]
      · simp [settleReceivableRun, h, h2]

/-- A demo receivable carrying both external ids, still unpaid. -/
def demoRecBothIds : Receivable :=
  { demoRec with efiChargeId := some "55" }

/-- C8 witness: with an ERP id present and the ERP settle raising, the
whole settlement aborts with the error and both the receivable row and
the audit log are unchanged. -/
theorem settleReceivable_atomic_witness :
    demoRecBothIds.gestaoClickId ≠ ""
    ∧ settleReceivableRun (Except.error "erp down") (Except.ok true)
        (some demoRecBothIds) [] 1500 105 7
      = (Except.error "erp down", some demoRecBothIds, []) :=
  ⟨by decide,
   (settleReceivable_atomic (Except.error "erp down") (Except.ok true)
       demoRecBothIds [] 1500 105 7).1 "erp down" (by decide) rfl⟩

/-- The banking adapter settle (`efiService.settleCharge`): every
internal error is caught and surfaces as a false result. -/
def settleChargeResult (inner : Except String Unit) : Except String Bool :=
  match inner with
  | Except.ok _ => Except.ok true
  | Except.error _ => Except.ok false

/-- The ERP adapter settle (`gestaoClickService.settleReceivable`):
every internal error is caught, logged and surfaces as false. -/
def settleReceivableResult (inner : Except String Unit) : Except String Bool :=
  match inner with
  | Except.ok _ => Except.ok true
  | Except.error _ => Except.ok false

/-- C9: the adapter settle operations never raise (an internal error
becomes a false return), and the coordinator discards their boolean
results; hence for every stored receivable — in particular one
carrying both external ids whose remote settles both fail — settlement
still marks it PAID locally, appends the audit entry and returns true. -/
theorem settlement_ignores_adapter_results
    (innerGc innerEfi : Except String Unit) (rec : Receivable)
    (audit : List AuditEntry) (pv : ℚ) (pa : Int) (uid : Nat) :
    (∀ e, settleReceivableResult (Except.error e) = Except.ok false)
    ∧ (∀ e, settleChargeResult (Except.error e) = Except.ok false)
    ∧ settleReceivableRun (settleReceivableResult innerGc)
        (settleChargeResult innerEfi) (some rec) audit pv pa uid
      = (Except.ok true,
         some { rec with status := RecStatus.PAID,
                         paidAt := some pa, paidValue := some pv },
         audit ++ [⟨uid, "SETTLE_RECEIVABLE", "Receivable", rec.id, pv, pa⟩]) := by
  refine ⟨fun e => rfl, fun e => rfl, ?_⟩
  obtain ⟨b1, h1⟩ : ∃ b, settleReceivableResult innerGc = Except.ok b := by
    cases innerGc <;> exact ⟨_, rfl⟩
  obtain ⟨b2, h2⟩ : ∃ b, settleChargeResult innerEfi = Except.ok b := by
    cases innerEfi <;> exact ⟨_, rfl⟩
  have hok : (if rec.gestaoClickId ≠ "" then settleReceivableResult innerGc
      else Except.ok true) = Except.ok (if rec.gestaoClickId ≠ "" then b1 else true) := by
    by_cases h : rec.gestaoClickId ≠ "" <;> simp [h, h1]
  have hok2 : (if truthy rec.efiChargeId then settleChargeResult innerEfi
      else Except.ok true) = Except.ok (if truthy rec.efiChargeId then b2 else true) := by
    by_cases h : truthy rec.efiChargeId <;> simp [h, h2]
  simp [settleReceivableRun, hok, hok2]

end AzuCob
